import Mathlib

/-!
Verification development for the abstract-domain framework in
src/lib/analysis/ai/domain.rs.

The Rust module is generic over a value lattice V (trait Value), a memory
model M (trait Memory) and an opaque IL scalar key type (il::Scalar).  We
embed it shallowly:

  - the key type il::Scalar becomes a type parameter S with decidable
    equality (HashMap keys must be Eq + Hash);
  - Result<T> becomes Except E T for an abstract error type E;
  - the trait methods used by State (Value::join, Memory::join) become
    record fields of ValueOps / MemoryOps, so theorems can quantify over
    every trait implementation;
  - HashMap<il::Scalar, V> becomes an association list List (S × V).
    Reachable HashMaps have no duplicate keys, so theorems carry a
    Nodup hypothesis on the key list where the proof needs it.
    HashMap equality in Rust is extensional (equal length and every
    key/value pair of one present in the other); it is embedded as
    hashMapEq below, and the derived State equality as stateEq.
  - the iteration order of a HashMap is unspecified; the embedding fixes
    it as the order of the association list, which is one admissible
    refinement of the Rust semantics.
-/

namespace Falcon

variable {E V M S : Type}

/-- Operations of the Value trait that State uses.  The trait also
declares empty and constant, but no State operation calls them, so they
take no part in this development. -/
structure ValueOps (E V : Type) where
  join : V → V → Except E V

/-- Operations of the Memory trait that State uses.  The trait also
declares store, load and new, but no State operation calls them. -/
structure MemoryOps (E M : Type) where
  join : M → M → Except E M

/-- Decidable equality of Result values, used to evaluate witnesses. -/
instance instDecidableEqExcept {A B : Type} [DecidableEq A] [DecidableEq B] :
    DecidableEq (Except A B)
  | Except.ok x, Except.ok y =>
    if h : x = y then Decidable.isTrue (by rw [h])
    else Decidable.isFalse (fun hc => h (by injection hc))
  | Except.error x, Except.error y =>
    if h : x = y then Decidable.isTrue (by rw [h])
    else Decidable.isFalse (fun hc => h (by injection hc))
  | Except.ok _, Except.error _ => Decidable.isFalse (fun hc => Except.noConfusion hc)
  | Except.error _, Except.ok _ => Decidable.isFalse (fun hc => Except.noConfusion hc)

/-- HashMap.get: first value stored under the key, if any. -/
def lookupVar [DecidableEq S] : List (S × V) → S → Option V
  | [], _ => none
  | (k, v) :: rest, key => if k = key then some v else lookupVar rest key

/-- HashMap.insert: replace the value under an existing key, otherwise
add a new entry. -/
def insertVar [DecidableEq S] : List (S × V) → S → V → List (S × V)
  | [], key, val => [(key, val)]
  | (k, v) :: rest, key, val =>
    if k = key then (key, val) :: rest else (k, v) :: insertVar rest key val

/-- HashMap.remove: drop the entry stored under the key. -/
def removeVar [DecidableEq S] : List (S × V) → S → List (S × V)
  | [], _ => []
  | (k, v) :: rest, key => if k = key then rest else (k, v) :: removeVar rest key

/-- The key list of a variable map. -/
def varKeys (l : List (S × V)) : List S := l.map Prod.fst

/-- The abstract Expression tree from domain.rs: IL expressions with
Scalar and Constant leaves replaced by an abstract Value.  Box-ing of
subtrees disappears in the embedding; ownership of the children is the
constructor argument itself. -/
inductive Expression (V : Type) where
  | Value : V → Expression V
  | Add : Expression V → Expression V → Expression V
  | Sub : Expression V → Expression V → Expression V
  | Mul : Expression V → Expression V → Expression V
  | Divu : Expression V → Expression V → Expression V
  | Modu : Expression V → Expression V → Expression V
  | Divs : Expression V → Expression V → Expression V
  | Mods : Expression V → Expression V → Expression V
  | And : Expression V → Expression V → Expression V
  | Or : Expression V → Expression V → Expression V
  | Xor : Expression V → Expression V → Expression V
  | Shl : Expression V → Expression V → Expression V
  | Shr : Expression V → Expression V → Expression V
  | Cmpeq : Expression V → Expression V → Expression V
  | Cmpneq : Expression V → Expression V → Expression V
  | Cmpltu : Expression V → Expression V → Expression V
  | Cmplts : Expression V → Expression V → Expression V
  | Zext : Nat → Expression V → Expression V
  | Sext : Nat → Expression V → Expression V
  | Trun : Nat → Expression V → Expression V
deriving DecidableEq

namespace Expression

def value (v : V) : Expression V := Expression.Value v

def add (lhs rhs : Expression V) : Expression V := Expression.Add lhs rhs

def sub (lhs rhs : Expression V) : Expression V := Expression.Sub lhs rhs

def mul (lhs rhs : Expression V) : Expression V := Expression.Mul lhs rhs

def divu (lhs rhs : Expression V) : Expression V := Expression.Divu lhs rhs

def modu (lhs rhs : Expression V) : Expression V := Expression.Modu lhs rhs

def divs (lhs rhs : Expression V) : Expression V := Expression.Divs lhs rhs

def mods (lhs rhs : Expression V) : Expression V := Expression.Mods lhs rhs

def and (lhs rhs : Expression V) : Expression V := Expression.And lhs rhs

def or (lhs rhs : Expression V) : Expression V := Expression.Or lhs rhs

def xor (lhs rhs : Expression V) : Expression V := Expression.Xor lhs rhs

def shl (lhs rhs : Expression V) : Expression V := Expression.Shl lhs rhs

def shr (lhs rhs : Expression V) : Expression V := Expression.Shr lhs rhs

def cmpeq (lhs rhs : Expression V) : Expression V := Expression.Cmpeq lhs rhs

def cmpneq (lhs rhs : Expression V) : Expression V := Expression.Cmpneq lhs rhs

def cmpltu (lhs rhs : Expression V) : Expression V := Expression.Cmpltu lhs rhs

def cmplts (lhs rhs : Expression V) : Expression V := Expression.Cmplts lhs rhs

def zext (bits : Nat) (rhs : Expression V) : Expression V := Expression.Zext bits rhs

def sext (bits : Nat) (rhs : Expression V) : Expression V := Expression.Sext bits rhs

def trun (bits : Nat) (rhs : Expression V) : Expression V := Expression.Trun bits rhs

end Expression

/-- The abstract State from domain.rs: the variable map together with a
memory model.  The first field is named variables in the Rust source;
variables is a reserved word in Lean, so the field is called vars. -/
structure State (M V S : Type) where
  vars : List (S × V)
  memory : M
deriving DecidableEq

/-- State::new: no variables, the given memory. -/
def State.new (memory : M) : State M V S :=
  { vars := [], memory := memory }

/-- State::variable (renamed: variable is a Lean keyword): look the
scalar up in the variable map. -/
def State.getVariable [DecidableEq S] (s : State M V S) (key : S) : Option V :=
  lookupVar s.vars key

/-- State::set_variable: insert into the variable map. -/
def State.set_variable [DecidableEq S] (s : State M V S) (key : S) (value : V) :
    State M V S :=
  { s with vars := insertVar s.vars key value }

/-- State::remove_variable: remove from the variable map.  The Rust
function returns the unit type (despite its doc comment promising a
Bool), so the embedding returns only the updated state. -/
def State.remove_variable [DecidableEq S] (s : State M V S) (key : S) :
    State M V S :=
  { s with vars := removeVar s.vars key }

/-- The loop of State::join: fold the entries of the other map into the
variable map of self.  A key present in both maps gets Value::join of
the two values, propagating any error; a key present only in the other
map gets a clone of that value. -/
def joinVarsAux [DecidableEq S] (vops : ValueOps E V) :
    List (S × V) → List (S × V) → Except E (List (S × V))
  | vars, [] => Except.ok vars
  | vars, (k, ov) :: rest =>
    match lookupVar vars k with
    | some sv =>
      match vops.join sv ov with
      | Except.ok w => joinVarsAux vops (insertVar vars k w) rest
      | Except.error e => Except.error e
    | none => joinVarsAux vops (insertVar vars k ov) rest

/-- State::join: fold the variables of other into self, then join the
two memories, propagating errors from either step. -/
def State.join [DecidableEq S] (vops : ValueOps E V) (mops : MemoryOps E M)
    (s : State M V S) (other : State M V S) : Except E (State M V S) :=
  match joinVarsAux vops s.vars other.vars with
  | Except.error e => Except.error e
  | Except.ok vars =>
    match mops.join s.memory other.memory with
    | Except.error e => Except.error e
    | Except.ok mem => Except.ok { vars := vars, memory := mem }

/-- The derived PartialEq of HashMap: equal lengths and every entry of
the left map present with an equal value in the right map. -/
def hashMapEq [DecidableEq S] [DecidableEq V] (a b : List (S × V)) : Bool :=
  decide (a.length = b.length) &&
    a.all fun kv =>
      match lookupVar b kv.1 with
      | some v => decide (kv.2 = v)
      | none => false

/-- The derived PartialEq of State: field-wise, with HashMap equality on
the variable maps. -/
def stateEq [DecidableEq S] [DecidableEq V] [DecidableEq M]
    (a b : State M V S) : Bool :=
  hashMapEq a.vars b.vars && decide (a.memory = b.memory)

/-- Equality of Result<State> values, as derived in Rust: errors compare
by error equality, Ok states by State equality. -/
def resultStateEq [DecidableEq E] [DecidableEq S] [DecidableEq V] [DecidableEq M] :
    Except E (State M V S) → Except E (State M V S) → Bool
  | Except.ok a, Except.ok b => stateEq a b
  | Except.error e1, Except.error e2 => decide (e1 = e2)
  | _, _ => false

/-- The derived structural serialization of State: the tuple of its
fields, the wire format of the field types being plugin-defined. -/
def State.serialize (s : State M V S) : List (S × V) × M :=
  (s.vars, s.memory)

/-- The matching structural deserialization of State. -/
def State.deserialize (p : List (S × V) × M) : State M V S :=
  { vars := p.1, memory := p.2 }

/-- A concrete Value trait instance for witnesses: join of two Nats is
their maximum and never fails; it is commutative and idempotent. -/
def natMaxVops : ValueOps Nat Nat :=
  { join := fun a b => Except.ok (max a b) }

/-- A concrete Memory trait instance for witnesses: the trivial memory
whose join never fails. -/
def unitMops : MemoryOps Nat Unit :=
  { join := fun _ _ => Except.ok () }

/-- A concrete Value trait instance whose join is commutative as a
Result but fails on unequal arguments with an argument-dependent
error. -/
def cexVops : ValueOps Nat Nat :=
  { join := fun a b => if a = b then Except.ok a else Except.error (a + b) }

/-- A concrete state used in witnesses. -/
def wsState : State Unit Nat Nat := { vars := [(1, 5)], memory := () }

/-- A concrete state with a key disjoint from wsState. -/
def wsOther : State Unit Nat Nat := { vars := [(2, 7)], memory := () }

/-- The join of wsState and wsOther under natMaxVops and unitMops. -/
def wsJoined : State Unit Nat Nat := { vars := [(1, 5), (2, 7)], memory := () }

/-- A concrete state sharing the key 1 with wsState. -/
def wsShared : State Unit Nat Nat := { vars := [(1, 3)], memory := () }

/-- The join of wsState and wsShared under natMaxVops and unitMops. -/
def wsJoinedShared : State Unit Nat Nat := { vars := [(1, 5)], memory := () }

/-- First state of the commutativity counterexample. -/
def cexS1 : State Unit Nat Nat := { vars := [(1, 10), (2, 20)], memory := () }

/-- Second state of the commutativity counterexample: the same two
keys, in the other storage order, with values unequal to those of
cexS1. -/
def cexS2 : State Unit Nat Nat := { vars := [(2, 21), (1, 11)], memory := () }

@[simp] theorem varKeys_nil : varKeys ([] : List (S × V)) = [] := rfl

@[simp] theorem varKeys_cons (hd : S × V) (tl : List (S × V)) :
    varKeys (hd :: tl) = hd.1 :: varKeys tl := rfl

theorem mem_varKeys {l : List (S × V)} {k : S} : k ∈ varKeys l ↔ ∃ v, (k, v) ∈ l := by
  constructor
  · intro h
    rcases List.mem_map.mp h with ⟨p, hm, he⟩
    exact ⟨p.2, by rw [← he]; exact hm⟩
  · rintro ⟨v, hv⟩
    exact List.mem_map.mpr ⟨(k, v), hv, rfl⟩

theorem lookupVar_eq_none_iff [DecidableEq S] (l : List (S × V)) (k : S) :
    lookupVar l k = none ↔ k ∉ varKeys l := by
  induction l with
  | nil => simp [lookupVar]
  | cons hd tl ih =>
    obtain ⟨k0, v0⟩ := hd
    by_cases h : k0 = k
    · subst h; simp [lookupVar]
    · simp [lookupVar, h, ih, Ne.symm h]

theorem mem_of_lookupVar [DecidableEq S] {l : List (S × V)} {k : S} {v : V}
    (h : lookupVar l k = some v) : (k, v) ∈ l := by
  induction l with
  | nil => simp [lookupVar] at h
  | cons hd tl ih =>
    obtain ⟨k0, v0⟩ := hd
    by_cases h0 : k0 = k
    · subst h0
      simp [lookupVar] at h
      subst h
      exact List.mem_cons_self _ _
    · simp [lookupVar, h0] at h
      exact List.mem_cons_of_mem _ (ih h)

theorem lookupVar_of_mem_nodup [DecidableEq S] {l : List (S × V)} {k : S} {v : V}
    (hn : (varKeys l).Nodup) (h : (k, v) ∈ l) : lookupVar l k = some v := by
  induction l with
  | nil => simp at h
  | cons hd tl ih =>
    obtain ⟨k0, v0⟩ := hd
    rw [varKeys_cons, List.nodup_cons] at hn
    rcases List.mem_cons.mp h with h1 | h1
    · rw [Prod.mk.injEq] at h1
      obtain ⟨hk, hv⟩ := h1
      simp [lookupVar, hk.symm, hv]
    · have hk : k0 ≠ k := by
        intro he
        subst he
        exact hn.1 (mem_varKeys.mpr ⟨v, h1⟩)
      simp [lookupVar, hk, ih hn.2 h1]

theorem lookupVar_insertVar_self [DecidableEq S] (l : List (S × V)) (k : S) (v : V) :
    lookupVar (insertVar l k v) k = some v := by
  induction l with
  | nil => simp [insertVar, lookupVar]
  | cons hd tl ih =>
    obtain ⟨k0, v0⟩ := hd
    by_cases h : k0 = k
    · simp [insertVar, h, lookupVar]
    · simp [insertVar, h, lookupVar, ih]

theorem lookupVar_insertVar_ne [DecidableEq S] (l : List (S × V)) {k key : S} (v : V)
    (h : key ≠ k) : lookupVar (insertVar l key v) k = lookupVar l k := by
  induction l with
  | nil => simp [insertVar, lookupVar, h]
  | cons hd tl ih =>
    obtain ⟨k0, v0⟩ := hd
    by_cases h0 : k0 = key
    · subst h0
      simp [insertVar, lookupVar, h, Ne.symm]
    · simp only [insertVar, h0, if_false, lookupVar]
      by_cases h1 : k0 = k <;> simp [h1, ih]

theorem insertVar_eq_self [DecidableEq S] {l : List (S × V)} {k : S} {v : V}
    (h : lookupVar l k = some v) : insertVar l k v = l := by
  induction l with
  | nil => simp [lookupVar] at h
  | cons hd tl ih =>
    obtain ⟨k0, v0⟩ := hd
    by_cases h0 : k0 = k
    · subst h0
      simp [lookupVar] at h
      simp [insertVar, h]
    · simp [lookupVar, h0] at h
      simp [insertVar, h0, ih h]

theorem varKeys_insertVar [DecidableEq S] (l : List (S × V)) (k : S) (v : V) :
    varKeys (insertVar l k v) =
      if k ∈ varKeys l then varKeys l else varKeys l ++ [k] := by
  induction l with
  | nil => simp [insertVar]
  | cons hd tl ih =>
    obtain ⟨k0, v0⟩ := hd
    by_cases h0 : k0 = k
    · subst h0; simp [insertVar]
    · simp only [insertVar, h0, if_false, varKeys_cons, ih]
      by_cases hm : k ∈ varKeys tl
      · simp [hm, List.mem_cons]
      · have : k ∉ (k0 :: varKeys tl) := by
          simp [List.mem_cons, hm, Ne.symm h0]
        simp [hm, this]

theorem nodup_varKeys_insertVar [DecidableEq S] {l : List (S × V)} (k : S) (v : V)
    (h : (varKeys l).Nodup) : (varKeys (insertVar l k v)).Nodup := by
  rw [varKeys_insertVar]
  by_cases hm : k ∈ varKeys l
  · simpa [hm] using h
  · simp only [hm, if_false]
    rw [List.nodup_append]
    exact ⟨h, List.nodup_singleton k, by simpa [List.disjoint_singleton] using hm⟩

theorem lookupVar_removeVar_self [DecidableEq S] {l : List (S × V)} (k : S)
    (h : (varKeys l).Nodup) : lookupVar (removeVar l k) k = none := by
  induction l with
  | nil => simp [removeVar, lookupVar]
  | cons hd tl ih =>
    obtain ⟨k0, v0⟩ := hd
    rw [varKeys_cons, List.nodup_cons] at h
    by_cases h0 : k0 = k
    · subst h0
      simp only [removeVar, if_pos rfl]
      exact (lookupVar_eq_none_iff tl k0).mpr h.1
    · simp [removeVar, h0, lookupVar, ih h.2]

theorem lookupVar_removeVar_ne [DecidableEq S] (l : List (S × V)) {k k2 : S}
    (h : k2 ≠ k) : lookupVar (removeVar l k) k2 = lookupVar l k2 := by
  induction l with
  | nil => simp [removeVar]
  | cons hd tl ih =>
    obtain ⟨k0, v0⟩ := hd
    by_cases h0 : k0 = k
    · subst h0
      have hk : k0 ≠ k2 := fun he => h (he.symm)
      simp [removeVar, lookupVar, hk]
    · simp only [removeVar, h0, if_false, lookupVar]
      by_cases h1 : k0 = k2 <;> simp [h1, ih]

theorem joinVarsAux_ok_lookup [DecidableEq S] (vops : ValueOps E V)
    (entries : List (S × V)) :
    ∀ vars res : List (S × V),
      joinVarsAux vops vars entries = Except.ok res →
      (varKeys entries).Nodup →
      ∀ k : S,
        (lookupVar entries k = none → lookupVar res k = lookupVar vars k) ∧
        (∀ ov, lookupVar entries k = some ov →
          (lookupVar vars k = none ∧ lookupVar res k = some ov) ∨
          (∃ sv w, lookupVar vars k = some sv ∧ vops.join sv ov = Except.ok w ∧
            lookupVar res k = some w)) := by
  induction entries with
  | nil =>
    intro vars res h _ k
    simp only [joinVarsAux, Except.ok.injEq] at h
    subst h
    exact ⟨fun _ => rfl, fun ov hov => by simp [lookupVar] at hov⟩
  | cons hd rest ih =>
    obtain ⟨k0, ov0⟩ := hd
    intro vars res h hn k
    rw [varKeys_cons, List.nodup_cons] at hn
    cases hl : lookupVar vars k0 with
    | none =>
      simp only [joinVarsAux, hl] at h
      have IH := ih (insertVar vars k0 ov0) res h hn.2
      by_cases hk : k = k0
      · subst hk
        constructor
        · intro hnone; simp [lookupVar] at hnone
        · intro ov hov
          simp only [lookupVar, if_true, eq_self_iff_true, Option.some.injEq] at hov
          subst hov
          left
          refine ⟨hl, ?_⟩
          have hstep := (IH k).1 ((lookupVar_eq_none_iff rest k).mpr hn.1)
          rw [hstep, lookupVar_insertVar_self]
      · have hk0 : k0 ≠ k := fun he => hk he.symm
        constructor
        · intro hnone
          simp only [lookupVar, if_neg hk0] at hnone
          have hstep := (IH k).1 hnone
          rw [hstep, lookupVar_insertVar_ne vars ov0 hk0]
        · intro ov hov
          simp only [lookupVar, if_neg hk0] at hov
          have hstep := (IH k).2 ov hov
          rw [lookupVar_insertVar_ne vars ov0 hk0] at hstep
          exact hstep
    | some sv0 =>
      cases hj : vops.join sv0 ov0 with
      | error e =>
        simp only [joinVarsAux, hl, hj] at h
        exact Except.noConfusion h
      | ok w =>
        simp only [joinVarsAux, hl, hj] at h
        have IH := ih (insertVar vars k0 w) res h hn.2
        by_cases hk : k = k0
        · subst hk
          constructor
          · intro hnone; simp [lookupVar] at hnone
          · intro ov hov
            simp only [lookupVar, if_true, eq_self_iff_true, Option.some.injEq] at hov
            subst hov
            right
            refine ⟨sv0, w, hl, hj, ?_⟩
            have hstep := (IH k).1 ((lookupVar_eq_none_iff rest k).mpr hn.1)
            rw [hstep, lookupVar_insertVar_self]
        · have hk0 : k0 ≠ k := fun he => hk he.symm
          constructor
          · intro hnone
            simp only [lookupVar, if_neg hk0] at hnone
            have hstep := (IH k).1 hnone
            rw [hstep, lookupVar_insertVar_ne vars w hk0]
          · intro ov hov
            simp only [lookupVar, if_neg hk0] at hov
            have hstep := (IH k).2 ov hov
            rw [lookupVar_insertVar_ne vars w hk0] at hstep
            exact hstep

theorem joinVarsAux_ok_nodup [DecidableEq S] (vops : ValueOps E V)
    (entries : List (S × V)) :
    ∀ vars res : List (S × V),
      joinVarsAux vops vars entries = Except.ok res →
      (varKeys vars).Nodup → (varKeys res).Nodup := by
  induction entries with
  | nil =>
    intro vars res h hn
    simp only [joinVarsAux, Except.ok.injEq] at h
    subst h
    exact hn
  | cons hd rest ih =>
    obtain ⟨k0, ov0⟩ := hd
    intro vars res h hn
    cases hl : lookupVar vars k0 with
    | none =>
      simp only [joinVarsAux, hl] at h
      exact ih _ _ h (nodup_varKeys_insertVar _ _ hn)
    | some sv0 =>
      cases hj : vops.join sv0 ov0 with
      | error e =>
        simp only [joinVarsAux, hl, hj] at h
        exact Except.noConfusion h
      | ok w =>
        simp only [joinVarsAux, hl, hj] at h
        exact ih _ _ h (nodup_varKeys_insertVar _ _ hn)

theorem joinVarsAux_error_shared [DecidableEq S] (vops : ValueOps E V)
    (entries : List (S × V)) :
    ∀ (vars : List (S × V)) (e : E),
      joinVarsAux vops vars entries = Except.error e →
      (varKeys entries).Nodup →
      ∃ k sv ov, lookupVar vars k = some sv ∧ lookupVar entries k = some ov ∧
        vops.join sv ov = Except.error e := by
  induction entries with
  | nil =>
    intro vars e h _
    exact Except.noConfusion h
  | cons hd rest ih =>
    obtain ⟨k0, ov0⟩ := hd
    intro vars e h hn
    rw [varKeys_cons, List.nodup_cons] at hn
    cases hl : lookupVar vars k0 with
    | none =>
      simp only [joinVarsAux, hl] at h
      obtain ⟨k, sv, ov, h1, h2, h3⟩ := ih _ _ h hn.2
      have hk0 : k0 ≠ k := by
        intro he
        subst he
        exact hn.1 (mem_varKeys.mpr ⟨ov, mem_of_lookupVar h2⟩)
      refine ⟨k, sv, ov, ?_, ?_, h3⟩
      · rw [← lookupVar_insertVar_ne vars ov0 hk0]
        exact h1
      · simp [lookupVar, hk0, h2]
    | some sv0 =>
      cases hj : vops.join sv0 ov0 with
      | error e0 =>
        simp only [joinVarsAux, hl, hj, Except.error.injEq] at h
        subst h
        exact ⟨k0, sv0, ov0, hl, by simp [lookupVar], hj⟩
      | ok w =>
        simp only [joinVarsAux, hl, hj] at h
        obtain ⟨k, sv, ov, h1, h2, h3⟩ := ih _ _ h hn.2
        have hk0 : k0 ≠ k := by
          intro he
          subst he
          exact hn.1 (mem_varKeys.mpr ⟨ov, mem_of_lookupVar h2⟩)
        refine ⟨k, sv, ov, ?_, ?_, h3⟩
        · rw [← lookupVar_insertVar_ne vars w hk0]
          exact h1
        · simp [lookupVar, hk0, h2]

theorem state_join_ok_elim [DecidableEq S] {vops : ValueOps E V} {mops : MemoryOps E M}
    {s other r : State M V S} (h : State.join vops mops s other = Except.ok r) :
    joinVarsAux vops s.vars other.vars = Except.ok r.vars ∧
    mops.join s.memory other.memory = Except.ok r.memory := by
  cases hv : joinVarsAux vops s.vars other.vars with
  | error e =>
    simp only [State.join, hv] at h
    exact Except.noConfusion h
  | ok vars =>
    cases hm : mops.join s.memory other.memory with
    | error e =>
      simp only [State.join, hv, hm] at h
      exact Except.noConfusion h
    | ok mem =>
      simp only [State.join, hv, hm, Except.ok.injEq] at h
      subst h
      exact ⟨rfl, rfl⟩

theorem state_join_ok_intro [DecidableEq S] {vops : ValueOps E V} {mops : MemoryOps E M}
    {s other : State M V S} {vars : List (S × V)} {mem : M}
    (hv : joinVarsAux vops s.vars other.vars = Except.ok vars)
    (hm : mops.join s.memory other.memory = Except.ok mem) :
    State.join vops mops s other = Except.ok { vars := vars, memory := mem } := by
  simp only [State.join, hv, hm]

theorem state_join_error_elim [DecidableEq S] {vops : ValueOps E V} {mops : MemoryOps E M}
    {s other : State M V S} {e : E} (h : State.join vops mops s other = Except.error e) :
    joinVarsAux vops s.vars other.vars = Except.error e ∨
    (∃ vars, joinVarsAux vops s.vars other.vars = Except.ok vars ∧
      mops.join s.memory other.memory = Except.error e) := by
  cases hv : joinVarsAux vops s.vars other.vars with
  | error e0 =>
    simp only [State.join, hv, Except.error.injEq] at h
    subst h
    exact Or.inl rfl
  | ok vars =>
    cases hm : mops.join s.memory other.memory with
    | error e0 =>
      simp only [State.join, hv, hm, Except.error.injEq] at h
      subst h
      exact Or.inr ⟨vars, rfl, rfl⟩
    | ok mem =>
      simp only [State.join, hv, hm] at h
      exact Except.noConfusion h

theorem state_join_error_of_vars [DecidableEq S] {vops : ValueOps E V}
    (mops : MemoryOps E M) {s other : State M V S} {e : E}
    (hv : joinVarsAux vops s.vars other.vars = Except.error e) :
    State.join vops mops s other = Except.error e := by
  simp only [State.join, hv]

theorem state_join_error_of_mem [DecidableEq S] {vops : ValueOps E V}
    {mops : MemoryOps E M} {s other : State M V S} {vars : List (S × V)} {e : E}
    (hv : joinVarsAux vops s.vars other.vars = Except.ok vars)
    (hm : mops.join s.memory other.memory = Except.error e) :
    State.join vops mops s other = Except.error e := by
  simp only [State.join, hv, hm]

theorem length_eq_of_lookup_eq [DecidableEq S] {a b : List (S × V)}
    (ha : (varKeys a).Nodup) (hb : (varKeys b).Nodup)
    (h : ∀ k, lookupVar a k = lookupVar b k) : a.length = b.length := by
  have hab : varKeys a ⊆ varKeys b := by
    intro k hk
    by_contra hkb
    have hbn : lookupVar b k = none := (lookupVar_eq_none_iff b k).mpr hkb
    have han : lookupVar a k = none := by rw [h k, hbn]
    exact ((lookupVar_eq_none_iff a k).mp han) hk
  have hba : varKeys b ⊆ varKeys a := by
    intro k hk
    by_contra hka
    have han : lookupVar a k = none := (lookupVar_eq_none_iff a k).mpr hka
    have hbn : lookupVar b k = none := by rw [← h k, han]
    exact ((lookupVar_eq_none_iff b k).mp hbn) hk
  have hlen : (varKeys a).length = (varKeys b).length :=
    le_antisymm (ha.subperm hab).length_le (hb.subperm hba).length_le
  simpa [varKeys] using hlen

theorem hashMapEq_iff [DecidableEq S] [DecidableEq V] {a b : List (S × V)}
    (ha : (varKeys a).Nodup) (hb : (varKeys b).Nodup) :
    hashMapEq a b = true ↔ ∀ k, lookupVar a k = lookupVar b k := by
  rw [hashMapEq, Bool.and_eq_true, decide_eq_true_eq, List.all_eq_true]
  constructor
  · rintro ⟨hlen, hall⟩ k
    have hsub : varKeys a ⊆ varKeys b := by
      intro k2 hk2
      rcases mem_varKeys.mp hk2 with ⟨v2, hv2⟩
      have hp := hall (k2, v2) hv2
      cases hb2 : lookupVar b k2 with
      | some w => exact mem_varKeys.mpr ⟨w, mem_of_lookupVar hb2⟩
      | none => rw [hb2] at hp; simp at hp
    cases hcase : lookupVar a k with
    | some v =>
      have hp := hall (k, v) (mem_of_lookupVar hcase)
      cases hb2 : lookupVar b k with
      | some w =>
        rw [hb2] at hp
        simp only [decide_eq_true_eq] at hp
        rw [hp]
      | none => rw [hb2] at hp; simp at hp
    | none =>
      cases hb2 : lookupVar b k with
      | none => rfl
      | some w =>
        exfalso
        have hperm : List.Perm (varKeys a) (varKeys b) :=
          (ha.subperm hsub).perm_of_length_le (by simpa [varKeys] using hlen.ge)
        have hkb : k ∈ varKeys b := mem_varKeys.mpr ⟨w, mem_of_lookupVar hb2⟩
        have hka : k ∈ varKeys a := hperm.mem_iff.mpr hkb
        exact ((lookupVar_eq_none_iff a k).mp hcase) hka
  · intro h
    refine ⟨length_eq_of_lookup_eq ha hb h, ?_⟩
    rintro ⟨k, v⟩ hm
    have hla : lookupVar a k = some v := lookupVar_of_mem_nodup ha hm
    have hlb : lookupVar b k = some v := by rw [← h k]; exact hla
    simp [hlb]

theorem stateEq_iff [DecidableEq S] [DecidableEq V] [DecidableEq M]
    {a b : State M V S}
    (ha : (varKeys a.vars).Nodup) (hb : (varKeys b.vars).Nodup) :
    stateEq a b = true ↔
      ((∀ k, a.getVariable k = b.getVariable k) ∧ a.memory = b.memory) := by
  rw [stateEq, Bool.and_eq_true, decide_eq_true_eq, hashMapEq_iff ha hb]
  exact Iff.rfl

theorem joinVarsAux_self [DecidableEq S] (vops : ValueOps E V)
    (hv : ∀ v, vops.join v v = Except.ok v) (entries : List (S × V)) :
    ∀ vars : List (S × V), (∀ p ∈ entries, lookupVar vars p.1 = some p.2) →
      joinVarsAux vops vars entries = Except.ok vars := by
  induction entries with
  | nil => intro vars _; rfl
  | cons hd rest ih =>
    obtain ⟨k0, v0⟩ := hd
    intro vars hmem
    have hl : lookupVar vars k0 = some v0 := hmem (k0, v0) (List.mem_cons_self _ _)
    simp only [joinVarsAux, hl, hv v0]
    rw [insertVar_eq_self hl]
    exact ih vars (fun p hp => hmem p (List.mem_cons_of_mem _ hp))

/-- Claim C4: for every memory m, State::new(m) returns a state whose
variable mapping is empty (looking up any scalar yields None and the
map of variables is the empty map) and whose memory is exactly m. -/
theorem state_new_empty [DecidableEq S] (m : M) :
    (∀ k : S, (State.new m : State M V S).getVariable k = none) ∧
    (State.new m : State M V S).vars = [] ∧
    (State.new m : State M V S).memory = m :=
  ⟨fun _ => rfl, rfl, rfl⟩

/-- Claim C5: after set_variable(k, v) the lookup of k returns Some v;
setting a key that is already present replaces its previous value, so
lookups at all other keys are unaffected and the keys of the map stay
unique. -/
theorem set_variable_lookup [DecidableEq S] (s : State M V S) (k : S) (v : V)
    (hs : (varKeys s.vars).Nodup) :
    (State.set_variable s k v).getVariable k = some v ∧
    (∀ k2, k2 ≠ k →
      (State.set_variable s k v).getVariable k2 = s.getVariable k2) ∧
    (varKeys (State.set_variable s k v).vars).Nodup := by
  refine ⟨lookupVar_insertVar_self s.vars k v, ?_, nodup_varKeys_insertVar k v hs⟩
  intro k2 h2
  exact lookupVar_insertVar_ne s.vars v (fun he => h2 he.symm)

/-- Witness for C5: concrete state, key and value. -/
theorem set_variable_lookup_witness :
    (varKeys wsState.vars).Nodup ∧
    ((State.set_variable wsState 1 9).getVariable 1 = some 9 ∧
     (∀ k2, k2 ≠ 1 →
       (State.set_variable wsState 1 9).getVariable k2 = wsState.getVariable k2) ∧
     (varKeys (State.set_variable wsState 1 9).vars).Nodup) :=
  ⟨by decide, set_variable_lookup wsState 1 9 (by decide)⟩

/-- Claim C10: after remove_variable(k) the lookup of k returns None,
lookups at all other keys and the memory are unchanged; the function
returns no indication of whether the key was present. -/
theorem remove_variable_effect [DecidableEq S] (s : State M V S) (k : S)
    (hs : (varKeys s.vars).Nodup) :
    (State.remove_variable s k).getVariable k = none ∧
    (∀ k2, k2 ≠ k →
      (State.remove_variable s k).getVariable k2 = s.getVariable k2) ∧
    (State.remove_variable s k).memory = s.memory := by
  refine ⟨lookupVar_removeVar_self k hs, ?_, rfl⟩
  intro k2 h2
  exact lookupVar_removeVar_ne s.vars h2

/-- Witness for C10: concrete state and key. -/
theorem remove_variable_effect_witness :
    (varKeys wsState.vars).Nodup ∧
    ((State.remove_variable wsState 1).getVariable 1 = none ∧
     (∀ k2, k2 ≠ 1 →
       (State.remove_variable wsState 1).getVariable k2 = wsState.getVariable k2) ∧
     (State.remove_variable wsState 1).memory = wsState.memory) :=
  ⟨by decide, remove_variable_effect wsState 1 (by decide)⟩

/-- Claim C6: the Expression tree consists of exactly the Value leaf
and the operator nodes Add through Trun; each binary constructor
function returns the corresponding node with the given left and right
subtrees, each of zext, sext, trun returns the corresponding node with
the given target bit-width and subtree, and value returns the leaf. -/
theorem expression_shape :
    (∀ (V : Type) (v : V), Expression.value v = Expression.Value v) ∧
    (∀ (V : Type) (l r : Expression V),
      Expression.add l r = Expression.Add l r ∧
      Expression.sub l r = Expression.Sub l r ∧
      Expression.mul l r = Expression.Mul l r ∧
      Expression.divu l r = Expression.Divu l r ∧
      Expression.modu l r = Expression.Modu l r ∧
      Expression.divs l r = Expression.Divs l r ∧
      Expression.mods l r = Expression.Mods l r ∧
      Expression.and l r = Expression.And l r ∧
      Expression.or l r = Expression.Or l r ∧
      Expression.xor l r = Expression.Xor l r ∧
      Expression.shl l r = Expression.Shl l r ∧
      Expression.shr l r = Expression.Shr l r ∧
      Expression.cmpeq l r = Expression.Cmpeq l r ∧
      Expression.cmpneq l r = Expression.Cmpneq l r ∧
      Expression.cmpltu l r = Expression.Cmpltu l r ∧
      Expression.cmplts l r = Expression.Cmplts l r) ∧
    (∀ (V : Type) (bits : Nat) (r : Expression V),
      Expression.zext bits r = Expression.Zext bits r ∧
      Expression.sext bits r = Expression.Sext bits r ∧
      Expression.trun bits r = Expression.Trun bits r) ∧
    (∀ (V : Type) (e : Expression V),
      (∃ v, e = Expression.Value v) ∨
      (∃ l r, e = Expression.Add l r) ∨
      (∃ l r, e = Expression.Sub l r) ∨
      (∃ l r, e = Expression.Mul l r) ∨
      (∃ l r, e = Expression.Divu l r) ∨
      (∃ l r, e = Expression.Modu l r) ∨
      (∃ l r, e = Expression.Divs l r) ∨
      (∃ l r, e = Expression.Mods l r) ∨
      (∃ l r, e = Expression.And l r) ∨
      (∃ l r, e = Expression.Or l r) ∨
      (∃ l r, e = Expression.Xor l r) ∨
      (∃ l r, e = Expression.Shl l r) ∨
      (∃ l r, e = Expression.Shr l r) ∨
      (∃ l r, e = Expression.Cmpeq l r) ∨
      (∃ l r, e = Expression.Cmpneq l r) ∨
      (∃ l r, e = Expression.Cmpltu l r) ∨
      (∃ l r, e = Expression.Cmplts l r) ∨
      (∃ bits r, e = Expression.Zext bits r) ∨
      (∃ bits r, e = Expression.Sext bits r) ∨
      (∃ bits r, e = Expression.Trun bits r)) := by
  refine ⟨fun _ _ => rfl,
    fun _ l r =>
      ⟨rfl, rfl, rfl, rfl, rfl, rfl, rfl, rfl, rfl, rfl, rfl, rfl, rfl, rfl, rfl, rfl⟩,
    fun _ bits r => ⟨rfl, rfl, rfl⟩, ?_⟩
  intro V e
  cases e <;> simp

/-- Claim C7: two States compare equal exactly when their variable
mappings are equal as maps (pointwise equal lookups) and their memories
are equal; State supports structural serialization, whose round trip
with deserialization is the identity. -/
theorem state_eq_and_serialization [DecidableEq S] [DecidableEq V] [DecidableEq M]
    (a b : State M V S)
    (ha : (varKeys a.vars).Nodup) (hb : (varKeys b.vars).Nodup) :
    (stateEq a b = true ↔
      ((∀ k, a.getVariable k = b.getVariable k) ∧ a.memory = b.memory)) ∧
    (∀ s : State M V S, State.deserialize (State.serialize s) = s) :=
  ⟨stateEq_iff ha hb, fun _ => rfl⟩

/-- Claim C1: when State::join succeeds, a variable present in exactly
one of the two states keeps its original value: a key absent from other
keeps the value it has in self (it is not joined against bottom), and a
key present only in other is copied into the result unchanged. -/
theorem state_join_key_handling [DecidableEq S] (vops : ValueOps E V)
    (mops : MemoryOps E M) (s other r : State M V S)
    (hno : (varKeys other.vars).Nodup)
    (hok : State.join vops mops s other = Except.ok r) :
    (∀ k, other.getVariable k = none → r.getVariable k = s.getVariable k) ∧
    (∀ k v, s.getVariable k = none → other.getVariable k = some v →
      r.getVariable k = some v) := by
  obtain ⟨hv, _⟩ := state_join_ok_elim hok
  constructor
  · intro k hk
    exact (joinVarsAux_ok_lookup vops other.vars s.vars r.vars hv hno k).1 hk
  · intro k v hks hko
    rcases (joinVarsAux_ok_lookup vops other.vars s.vars r.vars hv hno k).2 v hko with h | h
    · exact h.2
    · obtain ⟨sv, w, hsv, _, _⟩ := h
      have hks2 : lookupVar s.vars k = none := hks
      rw [hks2] at hsv
      exact Option.noConfusion hsv

/-- Witness for C1: joining two concrete states with disjoint keys
keeps both values unchanged. -/
theorem state_join_key_handling_witness :
    ((varKeys wsOther.vars).Nodup ∧
     State.join natMaxVops unitMops wsState wsOther = Except.ok wsJoined) ∧
    ((∀ k, wsOther.getVariable k = none →
       wsJoined.getVariable k = wsState.getVariable k) ∧
     (∀ k v, wsState.getVariable k = none → wsOther.getVariable k = some v →
       wsJoined.getVariable k = some v)) :=
  ⟨⟨by decide, by decide⟩,
   state_join_key_handling natMaxVops unitMops wsState wsOther wsJoined
     (by decide) (by decide)⟩

/-- Claim C2: when State::join succeeds, every variable present in both
states is mapped in the result to the (necessarily successful) result
of Value::join of the value in self with the value in other, and the
result memory is exactly Memory::join of the two memories. -/
theorem state_join_shared_and_memory [DecidableEq S] (vops : ValueOps E V)
    (mops : MemoryOps E M) (s other r : State M V S)
    (hno : (varKeys other.vars).Nodup)
    (hok : State.join vops mops s other = Except.ok r) :
    (∀ k sv ov, s.getVariable k = some sv → other.getVariable k = some ov →
      ∃ w, vops.join sv ov = Except.ok w ∧ r.getVariable k = some w) ∧
    mops.join s.memory other.memory = Except.ok r.memory := by
  obtain ⟨hv, hm⟩ := state_join_ok_elim hok
  refine ⟨?_, hm⟩
  intro k sv ov hks hko
  have hks2 : lookupVar s.vars k = some sv := hks
  rcases (joinVarsAux_ok_lookup vops other.vars s.vars r.vars hv hno k).2 ov hko with h | h
  · rw [hks2] at h
    exact Option.noConfusion h.1
  · obtain ⟨sv2, w, hsv2, hj, hr⟩ := h
    rw [hks2, Option.some.injEq] at hsv2
    subst hsv2
    exact ⟨w, hj, hr⟩

/-- Witness for C2: joining two concrete states sharing key 1 maps it
to the Value join of the two values, and the memories are joined. -/
theorem state_join_shared_and_memory_witness :
    ((varKeys wsShared.vars).Nodup ∧
     State.join natMaxVops unitMops wsState wsShared = Except.ok wsJoinedShared) ∧
    ((∀ k sv ov, wsState.getVariable k = some sv →
       wsShared.getVariable k = some ov →
       ∃ w, natMaxVops.join sv ov = Except.ok w ∧
         wsJoinedShared.getVariable k = some w) ∧
     unitMops.join wsState.memory wsShared.memory = Except.ok wsJoinedShared.memory) :=
  ⟨⟨by decide, by decide⟩,
   state_join_shared_and_memory natMaxVops unitMops wsState wsShared wsJoinedShared
     (by decide) (by decide)⟩

/-- Claim C3: State::join returns an error exactly when Value::join
fails for some variable present in both states or Memory::join fails on
the two memories, and any returned error is one of those underlying
errors, propagated unchanged rather than replaced by a sentinel. -/
theorem state_join_error_iff [DecidableEq S] (vops : ValueOps E V)
    (mops : MemoryOps E M) (s other : State M V S)
    (hno : (varKeys other.vars).Nodup) :
    ((∃ e, State.join vops mops s other = Except.error e) ↔
      ((∃ k sv ov e, s.getVariable k = some sv ∧ other.getVariable k = some ov ∧
        vops.join sv ov = Except.error e) ∨
       (∃ e, mops.join s.memory other.memory = Except.error e))) ∧
    (∀ e, State.join vops mops s other = Except.error e →
      ((∃ k sv ov, s.getVariable k = some sv ∧ other.getVariable k = some ov ∧
        vops.join sv ov = Except.error e) ∨
       mops.join s.memory other.memory = Except.error e)) := by
  have hprop : ∀ e, State.join vops mops s other = Except.error e →
      ((∃ k sv ov, s.getVariable k = some sv ∧ other.getVariable k = some ov ∧
        vops.join sv ov = Except.error e) ∨
       mops.join s.memory other.memory = Except.error e) := by
    intro e he
    rcases state_join_error_elim he with h | ⟨vars, hv, hm⟩
    · obtain ⟨k, sv, ov, hx1, hx2, hx3⟩ :=
        joinVarsAux_error_shared vops other.vars s.vars e h hno
      exact Or.inl ⟨k, sv, ov, hx1, hx2, hx3⟩
    · exact Or.inr hm
  refine ⟨⟨?_, ?_⟩, hprop⟩
  · rintro ⟨e, he⟩
    rcases hprop e he with ⟨k, sv, ov, hx1, hx2, hx3⟩ | h
    · exact Or.inl ⟨k, sv, ov, e, hx1, hx2, hx3⟩
    · exact Or.inr ⟨e, h⟩
  · intro h
    cases hj : State.join vops mops s other with
    | error e => exact ⟨e, rfl⟩
    | ok r =>
      exfalso
      obtain ⟨hv, hm⟩ := state_join_ok_elim hj
      rcases h with ⟨k, sv, ov, e, hx1, hx2, hx3⟩ | ⟨e, hme⟩
      · have hx12 : lookupVar s.vars k = some sv := hx1
        rcases (joinVarsAux_ok_lookup vops other.vars s.vars r.vars hv hno k).2 ov hx2 with hc | hc
        · rw [hx12] at hc
          exact Option.noConfusion hc.1
        · obtain ⟨sv2, w, hsv2, hjj, _⟩ := hc
          rw [hx12, Option.some.injEq] at hsv2
          subst hsv2
          rw [hx3] at hjj
          exact Except.noConfusion hjj
      · rw [hme] at hm
        exact Except.noConfusion hm

/-- Witness for C3: joining two concrete states whose shared keys have
a failing Value join produces exactly such an error. -/
theorem state_join_error_iff_witness :
    (varKeys cexS2.vars).Nodup ∧
    (((∃ e, State.join cexVops unitMops cexS1 cexS2 = Except.error e) ↔
      ((∃ k sv ov e, cexS1.getVariable k = some sv ∧ cexS2.getVariable k = some ov ∧
        cexVops.join sv ov = Except.error e) ∨
       (∃ e, unitMops.join cexS1.memory cexS2.memory = Except.error e))) ∧
     (∀ e, State.join cexVops unitMops cexS1 cexS2 = Except.error e →
       ((∃ k sv ov, cexS1.getVariable k = some sv ∧ cexS2.getVariable k = some ov ∧
         cexVops.join sv ov = Except.error e) ∨
        unitMops.join cexS1.memory cexS2.memory = Except.error e))) :=
  ⟨by decide, state_join_error_iff cexVops unitMops cexS1 cexS2 (by decide)⟩

/-- Claim C9: if Value::join is idempotent and Memory::join is
idempotent, then State::join of a state with itself returns Ok of that
very state. -/
theorem state_join_idempotent [DecidableEq S] (vops : ValueOps E V)
    (mops : MemoryOps E M)
    (hv : ∀ v, vops.join v v = Except.ok v)
    (hm : ∀ m, mops.join m m = Except.ok m)
    (s : State M V S) (hs : (varKeys s.vars).Nodup) :
    State.join vops mops s s = Except.ok s := by
  have h1 : joinVarsAux vops s.vars s.vars = Except.ok s.vars :=
    joinVarsAux_self vops hv s.vars s.vars
      (fun p hp => lookupVar_of_mem_nodup hs hp)
  have h2 := state_join_ok_intro h1 (hm s.memory)
  exact h2

/-- Witness for C9: the concrete idempotent joins applied to a concrete
state. -/
theorem state_join_idempotent_witness :
    ((∀ v, natMaxVops.join v v = Except.ok v) ∧
     (∀ m, unitMops.join m m = Except.ok m) ∧
     (varKeys wsState.vars).Nodup) ∧
    State.join natMaxVops unitMops wsState wsState = Except.ok wsState :=
  ⟨⟨fun v => by simp [natMaxVops], fun _ => rfl, by decide⟩,
   state_join_idempotent natMaxVops unitMops
     (fun v => by simp [natMaxVops]) (fun _ => rfl) wsState (by decide)⟩

/-- Witness for C7: two concrete states with the same entries stored in
different orders compare equal. -/
theorem state_eq_and_serialization_witness :
    ((varKeys wsJoined.vars).Nodup ∧
     (varKeys ({ vars := [(2, 7), (1, 5)], memory := () } : State Unit Nat Nat).vars).Nodup) ∧
    ((stateEq wsJoined { vars := [(2, 7), (1, 5)], memory := () } = true ↔
      ((∀ k, wsJoined.getVariable k =
        ({ vars := [(2, 7), (1, 5)], memory := () } : State Unit Nat Nat).getVariable k) ∧
       wsJoined.memory = ({ vars := [(2, 7), (1, 5)], memory := () } : State Unit Nat Nat).memory)) ∧
     (∀ s : State Unit Nat Nat, State.deserialize (State.serialize s) = s)) :=
  ⟨⟨by decide, by decide⟩,
   state_eq_and_serialization wsJoined { vars := [(2, 7), (1, 5)], memory := () }
     (by decide) (by decide)⟩

/-- Claim C8 counterexample: a Value join that is commutative as a
Result and a commutative Memory join, together with two concrete states
over the keys 1 and 2 whose values all clash, for which the two join
orders return two different errors: the first failing key depends on
which state supplies the iteration order, so the two Results differ and
Rust equality on them is false. -/
theorem state_join_commutative_cex :
    (∀ a b, cexVops.join a b = cexVops.join b a) ∧
    (∀ m1 m2 : Unit, unitMops.join m1 m2 = unitMops.join m2 m1) ∧
    (varKeys cexS1.vars).Nodup ∧ (varKeys cexS2.vars).Nodup ∧
    State.join cexVops unitMops cexS1 cexS2 = Except.error 41 ∧
    State.join cexVops unitMops cexS2 cexS1 = Except.error 21 ∧
    State.join cexVops unitMops cexS1 cexS2 ≠
      State.join cexVops unitMops cexS2 cexS1 ∧
    resultStateEq (State.join cexVops unitMops cexS1 cexS2)
      (State.join cexVops unitMops cexS2 cexS1) = false := by
  refine ⟨?_, fun _ _ => rfl, by decide, by decide, by decide, by decide, by decide, by decide⟩
  intro a b
  by_cases h : a = b
  · subst h; rfl
  · simp only [cexVops, if_neg h, if_neg (Ne.symm h), Except.error.injEq]
    exact Nat.add_comm a b

/-- Claim C8 (amended): if Value::join is commutative as a Result and
Memory::join is commutative as a Result, then joining two states in the
two orders gives the same outcome up to error identity: either both
orders fail (possibly with different errors, since the first failing
variable depends on iteration order), or both succeed and the two
result states are equal under State equality. -/
theorem state_join_commutative_amended [DecidableEq S] [DecidableEq V] [DecidableEq M]
    (vops : ValueOps E V) (mops : MemoryOps E M)
    (hvc : ∀ a b, vops.join a b = vops.join b a)
    (hmc : ∀ m1 m2, mops.join m1 m2 = mops.join m2 m1)
    (s1 s2 : State M V S)
    (h1 : (varKeys s1.vars).Nodup) (h2 : (varKeys s2.vars).Nodup) :
    (∃ e1 e2, State.join vops mops s1 s2 = Except.error e1 ∧
      State.join vops mops s2 s1 = Except.error e2) ∨
    (∃ r1 r2, State.join vops mops s1 s2 = Except.ok r1 ∧
      State.join vops mops s2 s1 = Except.ok r2 ∧ stateEq r1 r2 = true) := by
  cases hj12 : State.join vops mops s1 s2 with
  | error e1 =>
    cases hj21 : State.join vops mops s2 s1 with
    | error e2 => exact Or.inl ⟨e1, e2, rfl, rfl⟩
    | ok r2 =>
      exfalso
      obtain ⟨hv2, hm2⟩ := state_join_ok_elim hj21
      rcases state_join_error_elim hj12 with h | ⟨vars, hvx, hmx⟩
      · obtain ⟨k, sv, ov, hk1, hk2, hkj⟩ :=
          joinVarsAux_error_shared vops s2.vars s1.vars e1 h h2
        rcases (joinVarsAux_ok_lookup vops s1.vars s2.vars r2.vars hv2 h1 k).2 sv hk1 with hc | hc
        · rw [hk2] at hc
          exact Option.noConfusion hc.1
        · obtain ⟨sv2, w, hsv2, hjj, _⟩ := hc
          rw [hk2, Option.some.injEq] at hsv2
          subst hsv2
          rw [hvc ov sv, hkj] at hjj
          exact Except.noConfusion hjj
      · rw [hmc s1.memory s2.memory, hm2] at hmx
        exact Except.noConfusion hmx
  | ok r1 =>
    cases hj21 : State.join vops mops s2 s1 with
    | error e2 =>
      exfalso
      obtain ⟨hv1, hm1⟩ := state_join_ok_elim hj12
      rcases state_join_error_elim hj21 with h | ⟨vars, hvx, hmx⟩
      · obtain ⟨k, sv, ov, hk2, hk1, hkj⟩ :=
          joinVarsAux_error_shared vops s1.vars s2.vars e2 h h1
        rcases (joinVarsAux_ok_lookup vops s2.vars s1.vars r1.vars hv1 h2 k).2 sv hk2 with hc | hc
        · rw [hk1] at hc
          exact Option.noConfusion hc.1
        · obtain ⟨sv2, w, hsv2, hjj, _⟩ := hc
          rw [hk1, Option.some.injEq] at hsv2
          subst hsv2
          rw [hvc ov sv, hkj] at hjj
          exact Except.noConfusion hjj
      · rw [hmc s2.memory s1.memory, hm1] at hmx
        exact Except.noConfusion hmx
    | ok r2 =>
      refine Or.inr ⟨r1, r2, rfl, rfl, ?_⟩
      obtain ⟨hv1, hm1⟩ := state_join_ok_elim hj12
      obtain ⟨hv2, hm2⟩ := state_join_ok_elim hj21
      have hr1 : (varKeys r1.vars).Nodup :=
        joinVarsAux_ok_nodup vops s2.vars s1.vars r1.vars hv1 h1
      have hr2 : (varKeys r2.vars).Nodup :=
        joinVarsAux_ok_nodup vops s1.vars s2.vars r2.vars hv2 h2
      rw [stateEq, Bool.and_eq_true, decide_eq_true_eq, hashMapEq_iff hr1 hr2]
      constructor
      · intro k
        cases hc1 : lookupVar s1.vars k with
        | none =>
          cases hc2 : lookupVar s2.vars k with
          | none =>
            have e1 := (joinVarsAux_ok_lookup vops s2.vars s1.vars r1.vars hv1 h2 k).1 hc2
            have e2 := (joinVarsAux_ok_lookup vops s1.vars s2.vars r2.vars hv2 h1 k).1 hc1
            rw [e1, e2, hc1, hc2]
          | some v2 =>
            have e2 := (joinVarsAux_ok_lookup vops s1.vars s2.vars r2.vars hv2 h1 k).1 hc1
            rcases (joinVarsAux_ok_lookup vops s2.vars s1.vars r1.vars hv1 h2 k).2 v2 hc2 with hc | hc
            · rw [e2, hc2, hc.2]
            · obtain ⟨sv, w, hsv, _, _⟩ := hc
              rw [hc1] at hsv
              exact Option.noConfusion hsv
        | some v1 =>
          cases hc2 : lookupVar s2.vars k with
          | none =>
            have e1 := (joinVarsAux_ok_lookup vops s2.vars s1.vars r1.vars hv1 h2 k).1 hc2
            rcases (joinVarsAux_ok_lookup vops s1.vars s2.vars r2.vars hv2 h1 k).2 v1 hc1 with hc | hc
            · rw [e1, hc1, hc.2]
            · obtain ⟨sv, w, hsv, _, _⟩ := hc
              rw [hc2] at hsv
              exact Option.noConfusion hsv
          | some v2 =>
            rcases (joinVarsAux_ok_lookup vops s2.vars s1.vars r1.vars hv1 h2 k).2 v2 hc2 with hc | hc
            · rw [hc1] at hc
              exact Option.noConfusion hc.1
            · obtain ⟨sv, w, hsv, hjw, hrw⟩ := hc
              rw [hc1, Option.some.injEq] at hsv
              subst hsv
              rcases (joinVarsAux_ok_lookup vops s1.vars s2.vars r2.vars hv2 h1 k).2 v1 hc1 with hd | hd
              · rw [hc2] at hd
                exact Option.noConfusion hd.1
              · obtain ⟨sv2, w2, hsv2, hjw2, hrw2⟩ := hd
                rw [hc2, Option.some.injEq] at hsv2
                subst hsv2
                rw [hvc v2 v1, hjw, Except.ok.injEq] at hjw2
                rw [hrw, hrw2, hjw2]
      · have hmm : (Except.ok r2.memory : Except E M) = Except.ok r1.memory := by
          rw [← hm2, ← hmc s1.memory s2.memory, hm1]
        rw [Except.ok.injEq] at hmm
        exact hmm.symm

/-- Witness for the amended C8: the concrete commutative joins applied
to two concrete states with one shared and one unshared key. -/
theorem state_join_commutative_amended_witness :
    ((∀ a b, natMaxVops.join a b = natMaxVops.join b a) ∧
     (∀ m1 m2 : Unit, unitMops.join m1 m2 = unitMops.join m2 m1) ∧
     (varKeys wsState.vars).Nodup ∧ (varKeys wsJoined.vars).Nodup) ∧
    ((∃ e1 e2, State.join natMaxVops unitMops wsState wsJoined = Except.error e1 ∧
       State.join natMaxVops unitMops wsJoined wsState = Except.error e2) ∨
     (∃ r1 r2, State.join natMaxVops unitMops wsState wsJoined = Except.ok r1 ∧
       State.join natMaxVops unitMops wsJoined wsState = Except.ok r2 ∧
       stateEq r1 r2 = true)) :=
  ⟨⟨fun a b => by simp [natMaxVops, Nat.max_comm], fun _ _ => rfl, by decide, by decide⟩,
   state_join_commutative_amended natMaxVops unitMops
     (fun a b => by simp [natMaxVops, Nat.max_comm]) (fun _ _ => rfl)
     wsState wsJoined (by decide) (by decide)⟩

end Falcon
